import Mathlib

/-!
Verification development for the `rolling-buffer` repository.

The whole repository is one data structure, `RollingBuffer<T>`
(`src/src/buffer/buffer.rs`), a fixed-capacity ring buffer over a `Vec<T>`
with an unbounded degenerate mode when the capacity is 0.  We embed its
state as a Lean structure and each public operation of the `Rolling` trait
as a Lean function, translated line by line from the Rust source.  Rust's
`T: Default` bound becomes `[Inhabited T]` with `default`; `usize`
arithmetic is `Nat` arithmetic (no overflow concerns arise: the only
arithmetic is `%`, `+ 1` and `- 1` on counts); `Option<&T>` becomes
`Option T` (values, since `T: Clone`).  Indexing `self.vec[k]` is embedded
as `List.getD k default`; the separate totality development (see
`accessOk`) proves every such index is in bounds on reachable states, so
the `getD` default is never consulted.
-/

/-- State of `RollingBuffer<T>` (`src/src/buffer/buffer.rs`): `size` is the
fixed capacity chosen at construction, `vec` the backing storage,
`last_removed` the most recently displaced element (`None` initially),
`count` the total number of pushes ever made. -/
structure RollingBuffer (T : Type) where
  size : Nat
  vec : List T
  last_removed : Option T
  count : Nat

variable {T : Type}

/-- `Rolling::new(size)`: capacity-many default values when `size > 0`,
otherwise an empty growable vector. -/
def RollingBuffer.new (T : Type) [Inhabited T] (size : Nat) : RollingBuffer T :=
  ⟨size, if 0 < size then List.replicate size default else [], none, 0⟩

/-- `Rolling::push(value)`: in bounded mode replace slot `count % size`,
capturing the displaced element into `last_removed`; in unbounded mode
append.  Either way `count` increases by one. -/
def RollingBuffer.push [Inhabited T] (b : RollingBuffer T) (value : T) : RollingBuffer T :=
  if 0 < b.size then
    ⟨b.size, b.vec.set (b.count % b.size) value,
      some (b.vec.getD (b.count % b.size) default), b.count + 1⟩
  else
    ⟨b.size, b.vec ++ [value], b.last_removed, b.count + 1⟩

/-- `Rolling::get(i)`: bounded mode reads slot `i % size` unconditionally;
unbounded mode bounds-checks against the current length. -/
def RollingBuffer.get [Inhabited T] (b : RollingBuffer T) (i : Nat) : Option T :=
  if 0 < b.size then some (b.vec.getD (i % b.size) default)
  else if i < b.vec.length then some (b.vec.getD i default)
  else none

/-- `Rolling::last()`: the most recently pushed element. -/
def RollingBuffer.last [Inhabited T] (b : RollingBuffer T) : Option T :=
  if b.count = 0 then none
  else if 0 < b.size then some (b.vec.getD ((b.count - 1) % b.size) default)
  else some (b.vec.getD (b.vec.length - 1) default)

/-- `Rolling::last_mut()`: same element as `last`, returned mutably in the
source; value-wise it computes the identical index. -/
def RollingBuffer.last_mut [Inhabited T] (b : RollingBuffer T) : Option T :=
  if b.count = 0 then none
  else if 0 < b.size then some (b.vec.getD ((b.count - 1) % b.size) default)
  else some (b.vec.getD (b.vec.length - 1) default)

/-- `Rolling::first()`: the oldest retained element. -/
def RollingBuffer.first [Inhabited T] (b : RollingBuffer T) : Option T :=
  if b.count = 0 then none
  else if 0 < b.size then
    if b.count ≤ b.size then some (b.vec.getD 0 default)
    else some (b.vec.getD (b.count % b.size) default)
  else some (b.vec.getD 0 default)

/-- `Rolling::len()`: `count` while below capacity, else the storage
length. -/
def RollingBuffer.len (b : RollingBuffer T) : Nat :=
  if b.count < b.size then b.count else b.vec.length

/-- `Rolling::raw()`: the backing storage as laid out physically. -/
def RollingBuffer.raw (b : RollingBuffer T) : List T :=
  b.vec

/-- `Rolling::is_empty()`. -/
def RollingBuffer.is_empty (b : RollingBuffer T) : Bool :=
  b.count == 0

/-- `Rolling::to_vec()` (the snapshot): in bounded mode walk
`min(size, count)` slots forward from the start slot with wraparound; in
unbounded mode clone the storage. -/
def RollingBuffer.to_vec [Inhabited T] (b : RollingBuffer T) : List T :=
  if 0 < b.size then
    (List.range (min b.size b.count)).map
      (fun j =>
        b.vec.getD (((if b.count ≤ b.size then 0 else b.count % b.size) + j) % b.size) default)
  else b.vec

/-- The buffer reached by constructing with capacity `C` and pushing the
values of `vs` in order: the reachable states of the data structure. -/
def mkBuffer [Inhabited T] (C : Nat) (vs : List T) : RollingBuffer T :=
  vs.foldl RollingBuffer.push (RollingBuffer.new T C)

/-- The value physically stored in slot `j` after the first `N` values of
`vs` have been pushed into a bounded buffer of capacity `C`: the value of
the latest push that targeted slot `j`, or the default prefill if none
did. -/
def slotVal [Inhabited T] (C N : Nat) (vs : List T) (j : Nat) : T :=
  if j < N then vs.getD (N - 1 - ((N - 1 - j) % C)) default else default

/-- Every index at which the Rust source subscripts `self.vec` (which
panics when out of bounds), one conjunct per occurrence: `push`'s
`vec[count % size]`; `get`'s `vec[i % size]` (also the slot walked by
`to_vec`); `last`/`last_mut`'s `vec[(count - 1) % size]` (bounded) and
`vec[len - 1]` (unbounded, guarded by `count != 0`); `first`'s `vec[0]`
and `vec[count % size]` (the latter is conjunct one).  `len`, `size`,
`raw`, `last_removed`, `count` and `is_empty` do not subscript. -/
def accessOk (b : RollingBuffer T) (i : Nat) : Prop :=
  (0 < b.size → b.count % b.size < b.vec.length) ∧
  (0 < b.size → i % b.size < b.vec.length) ∧
  (0 < b.size → b.count ≠ 0 → (b.count - 1) % b.size < b.vec.length) ∧
  (b.size = 0 → b.count ≠ 0 → b.vec.length - 1 < b.vec.length) ∧
  (b.count ≠ 0 → 0 < b.vec.length)

/-! Sanity anchors: the concrete scenarios of the repository's tests
(`src/src/lib.rs`), evaluated on the embedding. -/

example : (mkBuffer 4 ([1, 2, 3, 4, 5, 6] : List Nat)).raw = [5, 6, 3, 4] := by decide
example : (mkBuffer 4 ([1, 2, 3, 4, 5, 6] : List Nat)).to_vec = [3, 4, 5, 6] := by decide
example : (mkBuffer 4 ([1, 2, 3, 4, 5, 6] : List Nat)).last = some 6 := by decide
example : (mkBuffer 4 ([1, 2, 3, 4, 5, 6] : List Nat)).first = some 3 := by decide
example : (mkBuffer 4 ([1, 2, 3, 4, 5, 6] : List Nat)).last_removed = some 2 := by decide
example : (mkBuffer 4 ([1, 2, 3, 4, 5, 6] : List Nat)).get 3 = some 4 := by decide
example : (mkBuffer 4 ([1, 2] : List Nat)).raw = [1, 2, 0, 0] := by decide
example : (mkBuffer 4 ([1, 2] : List Nat)).last_removed = some 0 := by decide
example : (mkBuffer 0 ([1, 2, 3, 4, 5] : List Nat)).to_vec = [1, 2, 3, 4, 5] := by decide
example : (mkBuffer 0 ([1, 2, 3, 4, 5] : List Nat)).count = 5 := by decide
example : (mkBuffer 0 ([1, 2, 3, 4, 5] : List Nat)).size = 0 := by decide
example : (mkBuffer 4 ([1, 2, 3, 4, 5] : List Nat)).to_vec = [2, 3, 4, 5] := by decide

/-! ### Basic reachability lemmas -/

/-- If `a` decomposes as `C * q + r` with `r < C` then `a % C = r`. -/
theorem mod_eq_of_decomp (C a r q : Nat) (h : a = C * q + r) (hr : r < C) : a % C = r := by
  subst h
  rw [Nat.mul_add_mod]
  exact Nat.mod_eq_of_lt hr

theorem mkBuffer_nil [Inhabited T] (C : Nat) :
    mkBuffer C ([] : List T) = RollingBuffer.new T C := rfl

theorem mkBuffer_concat [Inhabited T] (C : Nat) (vs : List T) (v : T) :
    mkBuffer C (vs ++ [v]) = (mkBuffer C vs).push v := by
  simp [mkBuffer, List.foldl_append]

/-- In unbounded mode the buffer is literally the list of pushed values. -/
theorem mkBuffer_zero [Inhabited T] (vs : List T) :
    mkBuffer 0 vs = ⟨0, vs, none, vs.length⟩ := by
  induction vs using List.reverseRecOn with
  | nil => rfl
  | append_singleton xs x ih =>
      rw [mkBuffer_concat, ih]
      simp [RollingBuffer.push]

theorem slotVal_zero [Inhabited T] (C : Nat) (vs : List T) (j : Nat) :
    slotVal C 0 vs j = default := by
  simp [slotVal]

/-- `slotVal` at time `N` only looks at the first `N` pushed values. -/
theorem slotVal_frozen [Inhabited T] (C N : Nat) (vs ws : List T) (j : Nat)
    (hN : N ≤ vs.length) :
    slotVal C N (vs ++ ws) j = slotVal C N vs j := by
  unfold slotVal
  by_cases h : j < N
  · rw [if_pos h, if_pos h, List.getD_append]
    omega
  · rw [if_neg h, if_neg h]

/-- One push updates exactly the slot `count % C` of the physical
characterization. -/
theorem slotVal_push [Inhabited T] (C : Nat) (hC : 0 < C) (vs : List T) (v : T) (j : Nat)
    (hj : j < C) :
    slotVal C (vs.length + 1) (vs ++ [v]) j =
      if j = vs.length % C then v else slotVal C vs.length vs j := by
  by_cases hjs : j = vs.length % C
  · rw [if_pos hjs, hjs]
    have hdec : C * (vs.length / C) + vs.length % C = vs.length := Nat.div_add_mod _ _
    have h0 : (vs.length + 1 - 1 - vs.length % C) % C = 0 := by
      apply mod_eq_of_decomp C _ 0 (vs.length / C) ?_ hC
      omega
    unfold slotVal
    rw [if_pos (by omega : vs.length % C < vs.length + 1), h0]
    rw [List.getD_append_right _ _ _ _ (by omega : vs.length ≤ vs.length + 1 - 1 - 0)]
    simp
  · rw [if_neg hjs]
    by_cases hjN : j < vs.length
    · have hdec : C * ((vs.length - j) / C) + (vs.length - j) % C = vs.length - j :=
        Nat.div_add_mod _ _
      have hrpos : 0 < (vs.length - j) % C := by
        rcases Nat.eq_zero_or_pos ((vs.length - j) % C) with h0 | h0
        · exfalso
          apply hjs
          have hN : vs.length = C * ((vs.length - j) / C) + j := by omega
          rw [hN, Nat.mul_add_mod, Nat.mod_eq_of_lt hj]
        · exact h0
      have hrC : (vs.length - j) % C < C := Nat.mod_lt _ hC
      have hm1 : (vs.length - 1 - j) % C = (vs.length - j) % C - 1 := by
        apply mod_eq_of_decomp C _ _ ((vs.length - j) / C)
        · omega
        · omega
      have hm2 : (vs.length + 1 - 1 - j) % C = (vs.length - j) % C := by
        simp
      unfold slotVal
      rw [if_pos (by omega : j < vs.length + 1), if_pos hjN, hm2, hm1]
      rw [List.getD_append]
      · congr 1
        omega
      · omega
    · have hjN1 : ¬ j < vs.length + 1 := by
        intro h
        have hjeq : j = vs.length := by omega
        apply hjs
        rw [hjeq] at hj ⊢
        exact (Nat.mod_eq_of_lt hj).symm
      unfold slotVal
      rw [if_neg hjN1, if_neg hjN]

/-- A logical index `m` that is still inside the retention window is found
in slot `m % C`. -/
theorem slotVal_live [Inhabited T] (C N : Nat) (hC : 0 < C) (vs : List T) (m : Nat)
    (hm : m < N) (hlive : N ≤ m + C) :
    slotVal C N vs (m % C) = vs.getD m default := by
  have hdec : C * (m / C) + m % C = m := Nat.div_add_mod m C
  have hmod : (N - 1 - m % C) % C = N - 1 - m := by
    apply mod_eq_of_decomp C _ _ (m / C)
    · omega
    · omega
  unfold slotVal
  rw [if_pos (by omega : m % C < N), hmod]
  congr 1
  omega

/-- Master invariant of reachable bounded-mode states: capacity and count
fields, physical storage length, the content of every slot, and the last
displaced element. -/
theorem mkBuffer_spec [Inhabited T] (C : Nat) (hC : 0 < C) (vs : List T) :
    (mkBuffer C vs).size = C ∧
    (mkBuffer C vs).count = vs.length ∧
    (mkBuffer C vs).vec.length = C ∧
    (∀ j, j < C → (mkBuffer C vs).vec.getD j default = slotVal C vs.length vs j) ∧
    (mkBuffer C vs).last_removed =
      (if vs.length = 0 then none
       else some (slotVal C (vs.length - 1) vs ((vs.length - 1) % C))) := by
  induction vs using List.reverseRecOn with
  | nil =>
      refine ⟨rfl, rfl, ?_, ?_, rfl⟩
      · show (if 0 < C then List.replicate C default else []).length = C
        rw [if_pos hC, List.length_replicate]
      · intro j hj
        show (if 0 < C then List.replicate C default else []).getD j default = _
        rw [if_pos hC, List.length_nil, slotVal_zero]
        rw [List.getD_eq_getElem _ _ (by simpa using hj), List.getElem_replicate]
  | append_singleton xs x ih =>
      obtain ⟨h1, h2, h3, h4, h5⟩ := ih
      have hs : (xs ++ [x]).length = xs.length + 1 := by simp
      rw [mkBuffer_concat]
      simp only [RollingBuffer.push, h1, h2, if_pos hC, hs]
      refine ⟨trivial, trivial, ?_, ?_, ?_⟩
      · rw [List.length_set, h3]
      · intro j hj
        rw [slotVal_push C hC xs x j hj]
        have hjlen : j < ((mkBuffer C xs).vec.set (xs.length % C) x).length := by
          rw [List.length_set, h3]
          exact hj
        rw [List.getD_eq_getElem _ _ hjlen, List.getElem_set]
        by_cases hc : xs.length % C = j
        · rw [if_pos hc, if_pos hc.symm]
        · rw [if_neg hc, if_neg (fun h => hc h.symm)]
          rw [← List.getD_eq_getElem _ default (by rw [h3]; exact hj)]
          exact h4 j hj
      · rw [if_neg (by omega : ¬ xs.length + 1 = 0)]
        simp only [Nat.add_sub_cancel]
        rw [slotVal_frozen C xs.length xs [x] _ (le_refl _)]
        rw [h4 (xs.length % C) (Nat.mod_lt _ hC)]

/-! ### Derived characterizations of the public operations on reachable
states -/

theorem mkBuffer_size [Inhabited T] (C : Nat) (vs : List T) : (mkBuffer C vs).size = C := by
  rcases Nat.eq_zero_or_pos C with h0 | hC
  · subst h0
    rw [mkBuffer_zero]
  · exact (mkBuffer_spec C hC vs).1

theorem mkBuffer_count [Inhabited T] (C : Nat) (vs : List T) :
    (mkBuffer C vs).count = vs.length := by
  rcases Nat.eq_zero_or_pos C with h0 | hC
  · subst h0
    rw [mkBuffer_zero]
  · exact (mkBuffer_spec C hC vs).2.1

theorem mkBuffer_len_pos [Inhabited T] (C : Nat) (hC : 0 < C) (vs : List T) :
    (mkBuffer C vs).len = min vs.length C := by
  obtain ⟨h1, h2, h3, -, -⟩ := mkBuffer_spec C hC vs
  unfold RollingBuffer.len
  rw [h1, h2, h3]
  split_ifs with h
  · omega
  · omega

theorem mkBuffer_len_zero [Inhabited T] (vs : List T) :
    (mkBuffer 0 vs).len = vs.length := by
  rw [mkBuffer_zero]
  simp [RollingBuffer.len]

/-- Bounded-mode snapshot: the last `min N C` pushed values in order. -/
theorem mkBuffer_toVec [Inhabited T] (C : Nat) (hC : 0 < C) (vs : List T) :
    (mkBuffer C vs).to_vec = vs.drop (vs.length - min vs.length C) := by
  obtain ⟨h1, h2, h3, h4, -⟩ := mkBuffer_spec C hC vs
  unfold RollingBuffer.to_vec
  rw [h1, h2, if_pos hC]
  apply List.ext_getElem
  · simp
    omega
  · intro n hn1 hn2
    have hmin : n < min C vs.length := by simpa using hn1
    rw [List.getElem_map, List.getElem_range, List.getElem_drop,
      ← List.getD_eq_getElem vs default (by omega)]
    rw [h4 _ (Nat.mod_lt _ hC)]
    have hm : ((if vs.length ≤ C then 0 else vs.length % C) + n) % C
        = (vs.length - min vs.length C + n) % C := by
      by_cases hNC : vs.length ≤ C
      · rw [if_pos hNC]
        have h0 : vs.length - min vs.length C = 0 := by omega
        rw [h0]
      · rw [if_neg hNC]
        have h1' : vs.length - min vs.length C = vs.length - C := by omega
        rw [h1', Nat.mod_add_mod]
        rw [show vs.length + n = vs.length - C + n + C by omega, Nat.add_mod_right]
    rw [hm]
    exact slotVal_live C vs.length hC vs _ (by omega) (by omega)

/-- Uniform snapshot characterization for both modes: the last `len`
pushed values in order. -/
theorem mkBuffer_toVec_len [Inhabited T] (C : Nat) (vs : List T) :
    (mkBuffer C vs).to_vec = vs.drop (vs.length - (mkBuffer C vs).len) := by
  rcases Nat.eq_zero_or_pos C with h0 | hC
  · subst h0
    rw [mkBuffer_len_zero, mkBuffer_zero]
    simp [RollingBuffer.to_vec]
  · rw [mkBuffer_len_pos C hC, mkBuffer_toVec C hC]

/-- `last` returns the most recently pushed value, `none` on an empty
buffer, in both modes. -/
theorem mkBuffer_last [Inhabited T] (C : Nat) (vs : List T) :
    (mkBuffer C vs).last =
      (if vs.length = 0 then none else some (vs.getD (vs.length - 1) default)) := by
  rcases Nat.eq_zero_or_pos C with h0 | hC
  · subst h0
    rw [mkBuffer_zero]
    simp only [RollingBuffer.last, lt_irrefl 0, if_false]
  · obtain ⟨h1, h2, -, h4, -⟩ := mkBuffer_spec C hC vs
    unfold RollingBuffer.last
    rw [h1, h2, if_pos hC]
    by_cases h : vs.length = 0
    · rw [if_pos h, if_pos h]
    · rw [if_neg h, if_neg h]
      congr 1
      rw [h4 _ (Nat.mod_lt _ hC)]
      exact slotVal_live C vs.length hC vs (vs.length - 1) (by omega) (by omega)

/-- `last_mut` designates the same element as `last`. -/
theorem mkBuffer_last_mut [Inhabited T] (C : Nat) (vs : List T) :
    (mkBuffer C vs).last_mut = (mkBuffer C vs).last := rfl

/-- `first` returns the oldest retained value (the one `len` positions
from the end of the push history), `none` on an empty buffer, in both
modes. -/
theorem mkBuffer_first [Inhabited T] (C : Nat) (vs : List T) :
    (mkBuffer C vs).first =
      (if vs.length = 0 then none
       else some (vs.getD (vs.length - (mkBuffer C vs).len) default)) := by
  rcases Nat.eq_zero_or_pos C with h0 | hC
  · subst h0
    rw [mkBuffer_len_zero, mkBuffer_zero]
    simp only [RollingBuffer.first, lt_irrefl 0, if_false, Nat.sub_self]
  · rw [mkBuffer_len_pos C hC]
    obtain ⟨h1, h2, -, h4, -⟩ := mkBuffer_spec C hC vs
    unfold RollingBuffer.first
    rw [h1, h2, if_pos hC]
    by_cases h0' : vs.length = 0
    · rw [if_pos h0', if_pos h0']
    · rw [if_neg h0', if_neg h0']
      by_cases hNC : vs.length ≤ C
      · rw [if_pos hNC]
        congr 1
        have hmin : vs.length - min vs.length C = 0 := by omega
        rw [hmin, h4 0 hC]
        have hlive := slotVal_live C vs.length hC vs 0 (by omega) (by omega)
        rw [Nat.zero_mod] at hlive
        exact hlive
      · rw [if_neg hNC]
        congr 1
        rw [h4 _ (Nat.mod_lt _ hC)]
        have hmin : vs.length - min vs.length C = vs.length - C := by omega
        rw [hmin]
        rw [Nat.mod_eq_sub_mod (by omega : vs.length ≥ C)]
        exact slotVal_live C vs.length hC vs (vs.length - C) (by omega) (by omega)

theorem mkBuffer_lastRemoved [Inhabited T] (C : Nat) (hC : 0 < C) (vs : List T) :
    (mkBuffer C vs).last_removed =
      (if vs.length = 0 then none
       else some (slotVal C (vs.length - 1) vs ((vs.length - 1) % C))) :=
  (mkBuffer_spec C hC vs).2.2.2.2

/-! ### The claims -/

/-- C1, counterexample: with capacity 2, already the first append makes
`last_removed` non-empty — it holds the displaced default prefill `0`, so
`last_evicted()` is not empty after a prefix of at most `C` appends, and
an append that only fills a previously-default slot does touch it. -/
theorem lastRemoved_single_push_cex :
    (mkBuffer 2 ([5] : List Nat)).last_removed = some 0 ∧
    ¬ (mkBuffer 2 ([5] : List Nat)).last_removed = none := by
  decide

/-- C1, amended: for capacity `C > 0`, `last_removed` is `none` only after
construction (zero appends); every bounded-mode append sets it, so after
`k` appends with `1 ≤ k ≤ C` it holds `some default` — the displaced
prefill value — rather than being empty or untouched. -/
theorem lastRemoved_prefill_default [Inhabited T] (C : Nat) (hC : 0 < C) (vs : List T)
    (hne : vs ≠ []) (hlen : vs.length ≤ C) :
    (mkBuffer C vs).last_removed = some default ∧
    (mkBuffer C ([] : List T)).last_removed = none := by
  refine ⟨?_, rfl⟩
  have hn : ¬ vs.length = 0 := fun h => hne (List.length_eq_zero.mp h)
  rw [mkBuffer_lastRemoved C hC vs, if_neg hn]
  congr 1
  unfold slotVal
  rw [Nat.mod_eq_of_lt (by omega : vs.length - 1 < C), if_neg (lt_irrefl _)]

/-- Witness for `lastRemoved_prefill_default` at `C = 3`, `vs = [7]`. -/
theorem lastRemoved_prefill_default_witness :
    (0 < 3 ∧ ([7] : List Nat) ≠ [] ∧ ([7] : List Nat).length ≤ 3) ∧
    ((mkBuffer 3 ([7] : List Nat)).last_removed = some 0 ∧
     (mkBuffer 3 ([] : List Nat)).last_removed = none) :=
  ⟨⟨by decide, by decide, by decide⟩,
    lastRemoved_prefill_default 3 (by decide) [7] (by decide) (by decide)⟩

/-- C2: for capacity `C > 0` and pushes `v1..vN`, the snapshot is the
last `min N C` values in push order: all of `vs` when `N ≤ C`, and
`[v(N-C+1), ..., vN]` (i.e. `vs.drop (N - C)`) when `N > C`. -/
theorem snapshot_window [Inhabited T] (C : Nat) (hC : 0 < C) (vs : List T) :
    (mkBuffer C vs).to_vec = vs.drop (vs.length - min vs.length C) ∧
    (vs.length ≤ C → (mkBuffer C vs).to_vec = vs) ∧
    (C < vs.length → (mkBuffer C vs).to_vec = vs.drop (vs.length - C)) := by
  refine ⟨mkBuffer_toVec C hC vs, fun h => ?_, fun h => ?_⟩
  · rw [mkBuffer_toVec C hC vs, show vs.length - min vs.length C = 0 by omega,
      List.drop_zero]
  · rw [mkBuffer_toVec C hC vs]
    congr 1
    omega

/-- Witness for `snapshot_window` at `C = 2`, `vs = [1, 2, 3]`. -/
theorem snapshot_window_witness :
    0 < 2 ∧
    ((mkBuffer 2 ([1, 2, 3] : List Nat)).to_vec
        = ([1, 2, 3] : List Nat).drop
            (([1, 2, 3] : List Nat).length - min ([1, 2, 3] : List Nat).length 2) ∧
     (([1, 2, 3] : List Nat).length ≤ 2 → (mkBuffer 2 ([1, 2, 3] : List Nat)).to_vec = [1, 2, 3]) ∧
     (2 < ([1, 2, 3] : List Nat).length →
        (mkBuffer 2 ([1, 2, 3] : List Nat)).to_vec
          = ([1, 2, 3] : List Nat).drop (([1, 2, 3] : List Nat).length - 2))) :=
  ⟨by decide, snapshot_window 2 (by decide) [1, 2, 3]⟩

/-- C3: in bounded mode `get i` always returns the element physically
stored at slot `i % C`, live or stale; it returns `none` exactly in
unbounded mode with `i` at or past the current storage length, and in
unbounded mode within range it returns the element at position `i`. -/
theorem get_semantics [Inhabited T] (C : Nat) (vs : List T) (i : Nat) :
    (0 < C → (mkBuffer C vs).get i
        = some ((mkBuffer C vs).vec.getD (i % C) default)) ∧
    ((mkBuffer 0 vs).get i
        = (if i < vs.length then some (vs.getD i default) else none)) ∧
    ((mkBuffer C vs).get i = none ↔ (C = 0 ∧ vs.length ≤ i)) := by
  have hzero : (mkBuffer 0 vs : RollingBuffer T).get i
      = (if i < vs.length then some (vs.getD i default) else none) := by
    rw [mkBuffer_zero]
    simp [RollingBuffer.get]
  refine ⟨?_, hzero, ?_⟩
  · intro hC
    unfold RollingBuffer.get
    rw [mkBuffer_size C vs, if_pos hC]
  · rcases Nat.eq_zero_or_pos C with h0 | hC
    · subst h0
      rw [hzero]
      by_cases h : i < vs.length
      · simp [h]
      · simp [h]
        omega
    · constructor
      · intro h
        exfalso
        unfold RollingBuffer.get at h
        rw [mkBuffer_size C vs, if_pos hC] at h
        exact Option.noConfusion h
      · intro h
        exact absurd h.1 (by omega)

/-- Witness for `get_semantics` at `C = 3`, `vs = [1, 2, 3, 4]`, `i = 1`. -/
theorem get_semantics_witness :
    (0 < 3 → (mkBuffer 3 ([1, 2, 3, 4] : List Nat)).get 1
        = some ((mkBuffer 3 ([1, 2, 3, 4] : List Nat)).vec.getD (1 % 3) default)) ∧
    ((mkBuffer 0 ([1, 2, 3, 4] : List Nat)).get 1
        = (if 1 < ([1, 2, 3, 4] : List Nat).length
           then some (([1, 2, 3, 4] : List Nat).getD 1 default) else none)) ∧
    ((mkBuffer 3 ([1, 2, 3, 4] : List Nat)).get 1 = none
        ↔ (3 = 0 ∧ ([1, 2, 3, 4] : List Nat).length ≤ 1)) :=
  get_semantics 3 [1, 2, 3, 4] 1

/-- C4: after `N` appends, `count` is `N` and `size` is `C`; `len` is
`min N C` in bounded mode and `N` (the raw storage length) in unbounded
mode. -/
theorem counters_spec [Inhabited T] (C : Nat) (vs : List T) :
    (mkBuffer C vs).count = vs.length ∧
    (mkBuffer C vs).size = C ∧
    (0 < C → (mkBuffer C vs).len = min vs.length C) ∧
    (C = 0 → (mkBuffer C vs).len = vs.length) := by
  refine ⟨mkBuffer_count C vs, mkBuffer_size C vs,
    fun hC => mkBuffer_len_pos C hC vs, fun h0 => ?_⟩
  subst h0
  exact mkBuffer_len_zero vs

/-- Witness for `counters_spec` at `C = 2`, `vs = [1, 2, 3]`. -/
theorem counters_spec_witness :
    (mkBuffer 2 ([1, 2, 3] : List Nat)).count = ([1, 2, 3] : List Nat).length ∧
    (mkBuffer 2 ([1, 2, 3] : List Nat)).size = 2 ∧
    (0 < 2 → (mkBuffer 2 ([1, 2, 3] : List Nat)).len
        = min ([1, 2, 3] : List Nat).length 2) ∧
    (2 = 0 → (mkBuffer 2 ([1, 2, 3] : List Nat)).len = ([1, 2, 3] : List Nat).length) :=
  counters_spec 2 [1, 2, 3]

/-- C5: for capacity `C > 0` and `N > C` pushed values, `last_removed`
holds the value displaced by the most recent overwriting append, namely
`v(N-C)` (index `N - C - 1` from zero). -/
theorem lastRemoved_overwrite [Inhabited T] (C : Nat) (hC : 0 < C) (vs : List T)
    (hlen : C < vs.length) :
    (mkBuffer C vs).last_removed
      = some (vs.getD (vs.length - C - 1) default) := by
  rw [mkBuffer_lastRemoved C hC vs, if_neg (by omega : ¬ vs.length = 0)]
  congr 1
  rw [Nat.mod_eq_sub_mod (by omega : vs.length - 1 ≥ C)]
  rw [slotVal_live C (vs.length - 1) hC vs (vs.length - 1 - C) (by omega) (by omega)]
  congr 1
  omega

/-- Witness for `lastRemoved_overwrite` at `C = 2`, `vs = [1, 2, 3]`. -/
theorem lastRemoved_overwrite_witness :
    (0 < 2 ∧ 2 < ([1, 2, 3] : List Nat).length) ∧
    (mkBuffer 2 ([1, 2, 3] : List Nat)).last_removed
      = some (([1, 2, 3] : List Nat).getD (([1, 2, 3] : List Nat).length - 2 - 1) default) :=
  ⟨⟨by decide, by decide⟩, lastRemoved_overwrite 2 (by decide) [1, 2, 3] (by decide)⟩

/-- C6: `first` is the oldest retained value (the one `len` positions
before the end of the push history) and `last` is the most recent append;
both are `none` exactly when `count = 0`. -/
theorem first_last_spec [Inhabited T] (C : Nat) (vs : List T) :
    ((mkBuffer C vs).first = none ↔ (mkBuffer C vs).count = 0) ∧
    ((mkBuffer C vs).last = none ↔ (mkBuffer C vs).count = 0) ∧
    (0 < (mkBuffer C vs).count →
      (mkBuffer C vs).first
          = some (vs.getD (vs.length - (mkBuffer C vs).len) default) ∧
      (mkBuffer C vs).last = some (vs.getD (vs.length - 1) default)) := by
  rw [mkBuffer_count C vs, mkBuffer_first C vs, mkBuffer_last C vs]
  by_cases h : vs.length = 0 <;> simp [h]

/-- Witness for `first_last_spec` at `C = 4`, `vs = [1, 2, 3, 4, 5, 6]`. -/
theorem first_last_spec_witness :
    ((mkBuffer 4 ([1, 2, 3, 4, 5, 6] : List Nat)).first = none
        ↔ (mkBuffer 4 ([1, 2, 3, 4, 5, 6] : List Nat)).count = 0) ∧
    ((mkBuffer 4 ([1, 2, 3, 4, 5, 6] : List Nat)).last = none
        ↔ (mkBuffer 4 ([1, 2, 3, 4, 5, 6] : List Nat)).count = 0) ∧
    (0 < (mkBuffer 4 ([1, 2, 3, 4, 5, 6] : List Nat)).count →
      (mkBuffer 4 ([1, 2, 3, 4, 5, 6] : List Nat)).first
          = some (([1, 2, 3, 4, 5, 6] : List Nat).getD
              (([1, 2, 3, 4, 5, 6] : List Nat).length
                - (mkBuffer 4 ([1, 2, 3, 4, 5, 6] : List Nat)).len) default) ∧
      (mkBuffer 4 ([1, 2, 3, 4, 5, 6] : List Nat)).last
          = some (([1, 2, 3, 4, 5, 6] : List Nat).getD
              (([1, 2, 3, 4, 5, 6] : List Nat).length - 1) default)) :=
  first_last_spec 4 [1, 2, 3, 4, 5, 6]

/-- C7: with capacity 0 (unbounded mode) the snapshot is every element
ever appended in insertion order, and `last_removed` stays `none`
forever. -/
theorem unbounded_mode_spec [Inhabited T] (vs : List T) :
    (mkBuffer 0 vs).to_vec = vs ∧ (mkBuffer 0 vs).last_removed = none := by
  rw [mkBuffer_zero]
  exact ⟨rfl, rfl⟩

/-- C8: for capacity `C > 0` the physical storage length is `C` in every
reachable state, and a further push leaves it `C` (in-place replacement). -/
theorem storage_length_invariant [Inhabited T] (C : Nat) (hC : 0 < C) (vs : List T) (v : T) :
    (mkBuffer C vs).vec.length = C ∧
    ((mkBuffer C vs).push v).vec.length = C := by
  refine ⟨(mkBuffer_spec C hC vs).2.2.1, ?_⟩
  rw [← mkBuffer_concat C vs v]
  exact (mkBuffer_spec C hC (vs ++ [v])).2.2.1

/-- Witness for `storage_length_invariant` at `C = 4`, `vs = [1, 2]`. -/
theorem storage_length_invariant_witness :
    0 < 4 ∧
    ((mkBuffer 4 ([1, 2] : List Nat)).vec.length = 4 ∧
     ((mkBuffer 4 ([1, 2] : List Nat)).push 9).vec.length = 4) :=
  ⟨by decide, storage_length_invariant 4 (by decide) [1, 2] 9⟩

/-- C9: on every reachable state, every subscripting of the backing
vector performed by any public operation (see `accessOk`) is in bounds,
so no operation panics. -/
theorem operations_total [Inhabited T] (C : Nat) (vs : List T) (i : Nat) :
    accessOk (mkBuffer C vs) i := by
  rcases Nat.eq_zero_or_pos C with h0 | hC
  · subst h0
    have hlen : (mkBuffer 0 vs : RollingBuffer T).vec.length = vs.length := by
      rw [mkBuffer_zero]
    unfold accessOk
    rw [mkBuffer_size 0 vs, mkBuffer_count 0 vs, hlen]
    refine ⟨?_, ?_, ?_, ?_, ?_⟩ <;> intros <;> omega
  · obtain ⟨h1, h2, h3, -, -⟩ := mkBuffer_spec C hC vs
    unfold accessOk
    rw [h1, h2, h3]
    exact ⟨fun _ => Nat.mod_lt _ hC, fun _ => Nat.mod_lt _ hC,
      fun _ _ => Nat.mod_lt _ hC, fun hz _ => absurd hz (by omega), fun _ => hC⟩

/-- Witness for `operations_total` at `C = 3`, `vs = [1, 2]`, `i = 7`. -/
theorem operations_total_witness : accessOk (mkBuffer 3 ([1, 2] : List Nat)) 7 :=
  operations_total 3 [1, 2] 7

/-- C10: whenever `count > 0`, in either mode, the snapshot is non-empty,
its head is the value of `first` and its final element is the value of
`last`. -/
theorem snapshot_first_last_consistent [Inhabited T] (C : Nat) (vs : List T)
    (hne : 0 < vs.length) :
    (mkBuffer C vs).to_vec ≠ [] ∧
    (mkBuffer C vs).to_vec.head? = (mkBuffer C vs).first ∧
    (mkBuffer C vs).to_vec.getLast? = (mkBuffer C vs).last := by
  have hlen_le : (mkBuffer C vs).len ≤ vs.length := by
    rcases Nat.eq_zero_or_pos C with h0 | hC
    · subst h0
      rw [mkBuffer_len_zero]
    · rw [mkBuffer_len_pos C hC]
      omega
  have hlen_pos : 0 < (mkBuffer C vs).len := by
    rcases Nat.eq_zero_or_pos C with h0 | hC
    · subst h0
      rw [mkBuffer_len_zero]
      exact hne
    · rw [mkBuffer_len_pos C hC]
      omega
  have hk : vs.length - (mkBuffer C vs).len < vs.length := by omega
  refine ⟨?_, ?_, ?_⟩
  · rw [mkBuffer_toVec_len C vs, ← List.length_pos, List.length_drop]
    omega
  · rw [mkBuffer_toVec_len C vs, mkBuffer_first C vs,
      if_neg (by omega : ¬ vs.length = 0)]
    rw [List.head?_drop, List.getElem?_eq_getElem hk, List.getD_eq_getElem _ _ hk]
  · rw [mkBuffer_toVec_len C vs, mkBuffer_last C vs,
      if_neg (by omega : ¬ vs.length = 0)]
    rw [List.getLast?_eq_getElem?, List.length_drop, List.getElem?_drop]
    rw [show vs.length - (mkBuffer C vs).len
          + (vs.length - (vs.length - (mkBuffer C vs).len) - 1) = vs.length - 1 by omega]
    rw [List.getElem?_eq_getElem (by omega : vs.length - 1 < vs.length),
      List.getD_eq_getElem _ _ (by omega : vs.length - 1 < vs.length)]

/-- Witness for `snapshot_first_last_consistent` at `C = 4`,
`vs = [1, 2, 3, 4, 5, 6]`. -/
theorem snapshot_first_last_consistent_witness :
    0 < ([1, 2, 3, 4, 5, 6] : List Nat).length ∧
    ((mkBuffer 4 ([1, 2, 3, 4, 5, 6] : List Nat)).to_vec ≠ [] ∧
     (mkBuffer 4 ([1, 2, 3, 4, 5, 6] : List Nat)).to_vec.head?
        = (mkBuffer 4 ([1, 2, 3, 4, 5, 6] : List Nat)).first ∧
     (mkBuffer 4 ([1, 2, 3, 4, 5, 6] : List Nat)).to_vec.getLast?
        = (mkBuffer 4 ([1, 2, 3, 4, 5, 6] : List Nat)).last) :=
  ⟨by decide, snapshot_first_last_consistent 4 [1, 2, 3, 4, 5, 6] (by decide)⟩
